import Mathlib

/-!
Verification of the parking occupancy analysis engine.

This file gives a shallow embedding of the analysis core of the backend:
the geometry adapter (`calculate_iou`, `check_containment`), the temporal
occupancy tracker (`OccupancyTracker.update`), the per-detection slot
matcher (`find_best_slot`), the per-frame occupancy aggregation
(`occupiedSlots`, `occupancy_timeline`), the slot-to-lot membership
resolution and lot rollups (`slot_to_lot`, `lot_rollup_counts`,
`lot_status`, `lot_status_analytics`), and the occupancy statistics
endpoints (`get_current_parking_status`, `get_current_occupancy_stats`,
`process_video_task_slot_guard`).

The shapely geometric primitives (polygon intersection, union and area)
are modelled by a discrete region measure: a valid geometry is a finite
set of grid cells whose area is its cardinality, and a distinguished
`invalid` geometry stands for malformed input on which the geometric
library raises (its area computations fail).  The arithmetic performed on
the resulting areas, the exception handling, every threshold comparison,
and all the aggregation loops are translated directly from the source.
-/

/-- Grid cells of the discrete region model of plane geometry. -/
abbrev Cell := ℕ × ℕ

/-- Model of a shapely geometry: a valid polygon is a finite region of
cells (its area is the number of cells); `invalid` is a malformed
geometry on which the geometric library raises. -/
inductive Shape where
  | region (cells : Finset Cell)
  | invalid
deriving DecidableEq

/-- Area of the intersection of two geometries; `none` models a raised
geometric exception. -/
def Shape.interArea : Shape → Shape → Option ℚ
  | Shape.region a, Shape.region b => some ((a ∩ b).card : ℚ)
  | _, _ => none

/-- Area of the union of two geometries; `none` models a raised geometric
exception. -/
def Shape.unionArea : Shape → Shape → Option ℚ
  | Shape.region a, Shape.region b => some ((a ∪ b).card : ℚ)
  | _, _ => none

/-- Area of one geometry; `none` models a raised geometric exception. -/
def Shape.area : Shape → Option ℚ
  | Shape.region a => some (a.card : ℚ)
  | Shape.invalid => none

/-- Translation of `calculate_iou` (videos.py, detections.py and
video_tasks.py, identical in all three): intersection area over union
area, `0.0` when the union area is not positive, and `0.0` when the
geometric computation raises (the `except` branch). -/
def calculate_iou (poly1 poly2 : Shape) : ℚ :=
  match poly1.interArea poly2, poly1.unionArea poly2 with
  | some intersection, some union => if 0 < union then intersection / union else 0
  | _, _ => 0

/-- Translation of `check_containment` (videos.py): true when at least
`threshold` of the slot area lies inside the lot; `false` for a zero-area
slot and `false` when the geometric computation raises. -/
def check_containment (slot_poly lot_poly : Shape) (threshold : ℚ) : Bool :=
  match slot_poly.interArea lot_poly, slot_poly.area with
  | some intersection, some slot_area =>
      if slot_area = 0 then false
      else decide (threshold ≤ intersection / slot_area)
  | _, _ => false

/-- State of the occupancy tracker for one slot (video_tasks.py): the
confirmation window length and the bounded list of the most recent
instantaneous samples.  Slots are tracked independently, so the state of
a single slot suffices. -/
structure OccupancyTracker where
  confirm_frames : ℕ
  window : List Bool
deriving DecidableEq

/-- Translation of `OccupancyTracker.update` (video_tasks.py): append the
sample, evict the oldest sample once the window exceeds
`confirm_frames`, then report "occupied" when the full window is all
true, "free" when it is all false, and nothing otherwise. -/
def OccupancyTracker.update (t : OccupancyTracker) (is_occupied : Bool) :
    OccupancyTracker × Option String :=
  let w0 := t.window ++ [is_occupied]
  let w := if t.confirm_frames < w0.length then w0.tail else w0
  let out :=
    if w.length = t.confirm_frames then
      if w.all (fun b => b) then some "occupied"
      else if (w.any (fun b => b)) = false then some "free"
      else none
    else none
  ({ t with window := w }, out)

/-- Feeds an ordered sequence of instantaneous samples to the tracker and
collects the emitted status values in order. -/
def OccupancyTracker.run (t : OccupancyTracker) (samples : List Bool) :
    List (Option String) :=
  (samples.foldl
    (fun (acc : OccupancyTracker × List (Option String)) b =>
      let r := acc.1.update b
      (r.1, acc.2 ++ [r.2]))
    (t, [])).2

/-- Loop body of the best-slot search in `get_detections_by_frames` and
`get_frame_detections` (detections.py): a slot replaces the running best
match when its IoU strictly exceeds the running best IoU and meets the
threshold. -/
def fbs_step (detection_polygon : Shape) (iou_threshold : ℚ)
    (best : Option ℕ × ℚ) (sp : ℕ × Shape) : Option ℕ × ℚ :=
  let iou := calculate_iou detection_polygon sp.2
  if best.2 < iou ∧ iou_threshold ≤ iou then (some sp.1, iou) else best

/-- Translation of the slot matcher loop (detections.py): fold over the
slot polygons in iteration order, starting from no match and best IoU
`0.0`, returning the final best slot id and best IoU. -/
def find_best_slot (detection_polygon : Shape) (slot_polygons : List (ℕ × Shape))
    (iou_threshold : ℚ) : Option ℕ × ℚ :=
  slot_polygons.foldl (fbs_step detection_polygon iou_threshold) (none, 0)

/-- Inner loop of the per-frame occupancy aggregation (videos.py
`get_current_parking_status` and detections.py `get_occupancy_stats`):
one detection adds every slot whose IoU with it meets the threshold to
the occupied set. -/
def mark_occupied (iou_threshold : ℚ) (detection_polygon : Shape)
    (occupied : Finset ℕ) (slot_polygons : List (ℕ × Shape)) : Finset ℕ :=
  slot_polygons.foldl
    (fun occ sp =>
      if iou_threshold ≤ calculate_iou detection_polygon sp.2 then insert sp.1 occ
      else occ)
    occupied

/-- Translation of the occupied-slot computation shared by the occupancy
aggregation endpoints: every detection is checked against every slot
independently. -/
def occupiedSlots (detections : List Shape) (slot_polygons : List (ℕ × Shape))
    (iou_threshold : ℚ) : Finset ℕ :=
  detections.foldl
    (fun occupied det => mark_occupied iou_threshold det occupied slot_polygons)
    ∅

/-- One stored detection as consumed by the aggregation endpoints: its
frame number and the polygon derived from its normalized bounding box. -/
structure Det where
  frame_number : ℕ
  shape : Shape
deriving DecidableEq

/-- One entry of the occupancy timeline produced by
`get_occupancy_stats` (detections.py); the response additionally carries
the frame timestamp, which is opaque glue data. -/
structure TimelineEntry where
  frame_number : ℕ
  total_slots : ℕ
  occupied_slots : ℕ
  free_slots : ℤ
  occupancy_rate : ℚ
  total_detections : ℕ
deriving DecidableEq

/-- Inserts a frame number into a list sorted in ascending order. -/
def insertSorted (n : ℕ) : List ℕ → List ℕ
  | [] => [n]
  | m :: ms => if n ≤ m then n :: m :: ms else m :: insertSorted n ms

/-- Sorts a list of frame numbers in ascending order, modelling the
`sorted(...)` call of the timeline construction. -/
def sortNat (l : List ℕ) : List ℕ :=
  l.foldr insertSorted []

/-- Translation of the timeline construction of `get_occupancy_stats`
(detections.py): group the detections by frame number, mark a slot
occupied in a frame when some detection of that frame has IoU at least
the threshold with it, and emit one entry per distinct frame in
ascending frame order.  Only frames that have at least one detection
ever enter the grouping dictionary. -/
def occupancy_timeline (detections : List Det) (slot_polygons : List (ℕ × Shape))
    (iou_threshold : ℚ) : List TimelineEntry :=
  let frames := sortNat ((detections.map (fun d => d.frame_number)).dedup)
  frames.map
    (fun f =>
      let frame_dets := detections.filter (fun d => d.frame_number = f)
      let occ := occupiedSlots (frame_dets.map (fun d => d.shape)) slot_polygons iou_threshold
      let total := slot_polygons.length
      { frame_number := f
        total_slots := total
        occupied_slots := occ.card
        free_slots := (total : ℤ) - (occ.card : ℤ)
        occupancy_rate := if 0 < total then (occ.card : ℚ) / (total : ℚ) else 0
        total_detections := frame_dets.length })

/-- Translation of the slot-to-lot resolution (videos.py
`get_lots_parking_status` and `get_video_analytics`): iterate the
parking lots in order and assign the slot to the first lot containing at
least half of it; a slot with no qualifying lot stays unassigned. -/
def slot_to_lot (parking_lots : List (ℕ × Shape)) (slot_poly : Shape) : Option ℕ :=
  (parking_lots.find? (fun lp => check_containment slot_poly lp.2 (1 / 2))).map Prod.fst

/-- Loop body of the lot aggregation of `get_lots_parking_status`
(videos.py): for one slot, when it resolved to a lot present in the lot
table, increment that lot's capacity, and its occupied count when the
slot is occupied. -/
def lot_rollup_step (parking_lots : List (ℕ × Shape)) (occupied_slots : Finset ℕ)
    (lot_data : ℕ → ℕ × ℕ) (sp : ℕ × Shape) : ℕ → ℕ × ℕ :=
  match slot_to_lot parking_lots sp.2 with
  | some lid =>
      if lid ∈ parking_lots.map Prod.fst then
        fun l =>
          if l = lid then
            ((lot_data l).1 + 1,
             (lot_data l).2 + (if sp.1 ∈ occupied_slots then 1 else 0))
          else lot_data l
      else lot_data
  | none => lot_data

/-- Translation of the lot aggregation loop of `get_lots_parking_status`
(videos.py): one pass over the slots updating, for the lot each slot
resolved to, its capacity and its occupied count.  The result maps a lot
id to its `(capacity, occupied)` counters. -/
def lot_rollup_counts (parking_lots : List (ℕ × Shape))
    (parking_slots : List (ℕ × Shape)) (occupied_slots : Finset ℕ) : ℕ → ℕ × ℕ :=
  parking_slots.foldl (lot_rollup_step parking_lots occupied_slots) (fun _ => (0, 0))

/-- Translation of the lot status labelling of `get_lots_parking_status`
(videos.py): thresholds evaluated high to low with inclusive
comparisons. -/
def lot_status (occupancy_rate : ℚ) : String :=
  if 95 / 100 ≤ occupancy_rate then "full"
  else if 7 / 10 ≤ occupancy_rate then "busy"
  else if 3 / 10 ≤ occupancy_rate then "moderate"
  else "free"

/-- Translation of the lot status labelling of the `lot_statistics`
rollup in `get_video_analytics` (videos.py): strict comparisons and no
"full" label. -/
def lot_status_analytics (occupancy_rate : ℚ) : String :=
  if 7 / 10 < occupancy_rate then "busy"
  else if 3 / 10 < occupancy_rate then "moderate"
  else "free"

/-- Model of the Python built in `round` on rationals: round half to
even. -/
def py_round (x : ℚ) : ℤ :=
  let f := ⌊x⌋
  let frac := x - (f : ℚ)
  if frac < 1 / 2 then f
  else if 1 / 2 < frac then f + 1
  else if f % 2 = 0 then f else f + 1

/-- Model of `round(x, 2)`: round half to even at two decimal places. -/
def round2 (x : ℚ) : ℚ :=
  ((py_round (x * 100) : ℚ)) / 100

/-- Summary block of the current-status response of
`get_current_parking_status` (videos.py). -/
structure CurrentSummary where
  total_slots : ℕ
  occupied : ℕ
  free : ℤ
  occupancy_rate : ℚ
deriving DecidableEq

/-- Translation of the result shape of `get_current_parking_status`
(videos.py): the status string of the returned variant together with its
summary block.  `has_video` records whether a processed video exists for
the camera, and `latest_frame_detections` is the list of detections of
the latest frame of that video (empty exactly when the video has no
detections at all, in which case the latest frame query yields NULL). -/
def get_current_parking_status (has_video : Bool)
    (slot_polygons : List (ℕ × Shape)) (latest_frame_detections : List Shape)
    (iou_threshold : ℚ) : String × CurrentSummary :=
  if has_video = false then ("no_data", ⟨0, 0, 0, 0⟩)
  else if slot_polygons.isEmpty then ("no_slots", ⟨0, 0, 0, 0⟩)
  else if latest_frame_detections.isEmpty then
    ("no_detections",
     ⟨slot_polygons.length, 0, (slot_polygons.length : ℤ), 0⟩)
  else
    let occupied := occupiedSlots latest_frame_detections slot_polygons iou_threshold
    let total := slot_polygons.length
    ("ok",
     ⟨total, occupied.card, (total : ℤ) - (occupied.card : ℤ),
      if 0 < total then round2 ((occupied.card : ℚ) / (total : ℚ)) else 0⟩)

/-- Translation of the result variant selection of
`get_lots_parking_status` (videos.py): no processed video, no lots
defined, no detections, or the ok path. -/
def lots_status_variant (has_video : Bool) (parking_lots : List (ℕ × Shape))
    (latest_frame_detections : List Shape) : String :=
  if has_video = false then "no_data"
  else if parking_lots.isEmpty then "no_lots"
  else if latest_frame_detections.isEmpty then "no_detections"
  else "ok"

/-- Translation of the parking-slot guard of `process_video_task`
(video_tasks.py): with no parking slots defined for the camera the task
raises `ValueError("No parking slots defined for this camera")`,
modelled as an error result; otherwise processing proceeds. -/
def process_video_task_slot_guard (parking_slots : List (ℕ × Shape)) :
    Except String Unit :=
  if parking_slots.isEmpty then
    Except.error "No parking slots defined for this camera"
  else Except.ok ()

/-- Response of `get_current_occupancy_stats` (events.py). -/
structure OccupancyStats where
  total_slots : ℕ
  occupied_slots : ℕ
  free_slots : ℕ
  unknown_slots : ℕ
  occupancy_rate : ℚ
deriving DecidableEq

/-- Loop body of the per-slot counting of `get_current_occupancy_stats`
(events.py): classify the latest event of one slot as occupied, free or
unknown (also unknown when the slot has no event). -/
def occupancy_counts_step (latest_event_status : ℕ → Option String)
    (c : ℕ × ℕ × ℕ) (sid : ℕ) : ℕ × ℕ × ℕ :=
  match latest_event_status sid with
  | some st =>
      if st = "occupied" then (c.1 + 1, c.2.1, c.2.2)
      else if st = "free" then (c.1, c.2.1 + 1, c.2.2)
      else (c.1, c.2.1, c.2.2 + 1)
  | none => (c.1, c.2.1, c.2.2 + 1)

/-- Translation of `get_current_occupancy_stats` (events.py): with no
slots the zeroed statistics are returned with rate `0.0`; otherwise the
latest event of each slot is classified as occupied, free or unknown,
and the rate is `occupied / total * 100`.  `latest_event_status` gives
the status of the most recent event of a slot, or `none` when the slot
has no event. -/
def get_current_occupancy_stats (slot_ids : List ℕ)
    (latest_event_status : ℕ → Option String) : OccupancyStats :=
  if slot_ids.isEmpty then ⟨0, 0, 0, 0, 0⟩
  else
    let counts :=
      slot_ids.foldl (occupancy_counts_step latest_event_status) (0, 0, 0)
    let total := slot_ids.length
    ⟨total, counts.1, counts.2.1, counts.2.2,
     if 0 < total then (counts.1 : ℚ) / (total : ℚ) * 100 else 0⟩

/-! Reduction lemmas used to evaluate the geometry on concrete regions. -/

theorem calculate_iou_region (a b : Finset Cell) :
    calculate_iou (Shape.region a) (Shape.region b)
      = if 0 < ((a ∪ b).card : ℚ) then ((a ∩ b).card : ℚ) / ((a ∪ b).card : ℚ)
        else 0 := rfl

theorem check_containment_region (a b : Finset Cell) (t : ℚ) :
    check_containment (Shape.region a) (Shape.region b) t
      = if (a.card : ℚ) = 0 then false
        else decide (t ≤ ((a ∩ b).card : ℚ) / (a.card : ℚ)) := rfl

theorem calculate_iou_invalid_left (b : Shape) :
    calculate_iou Shape.invalid b = 0 := rfl

theorem calculate_iou_invalid_right (a : Shape) :
    calculate_iou a Shape.invalid = 0 := by
  cases a <;> rfl

/-- C8: for all inputs, including degenerate and malformed geometry,
`calculate_iou` stays within `[0, 1]`, returns `0.0` for a zero union
area and `0.0` when the geometric computation fails, and
`check_containment` resolves a zero-area or failing slot polygon to
`false`; moreover a containment check can only succeed for a threshold
at most `1`. -/
theorem iou_containment_safety :
    ∀ a b : Shape,
      (0 ≤ calculate_iou a b ∧ calculate_iou a b ≤ 1)
      ∧ (Shape.unionArea a b = some 0 → calculate_iou a b = 0)
      ∧ (Shape.interArea a b = none ∨ Shape.unionArea a b = none →
          calculate_iou a b = 0)
      ∧ ∀ t : ℚ,
          (Shape.area a = some 0 → check_containment a b t = false)
          ∧ (Shape.area a = none → check_containment a b t = false)
          ∧ (check_containment a b t = true → t ≤ 1) := by
  intro a b
  cases a with
  | invalid =>
      refine ⟨⟨le_refl 0, zero_le_one⟩, fun _ => rfl, fun _ => rfl, fun t => ⟨fun _ => rfl, fun _ => rfl, fun h => ?_⟩⟩
      cases b <;> simp [check_containment, Shape.interArea, Shape.area] at h
  | region sa =>
      cases b with
      | invalid =>
          refine ⟨⟨le_refl 0, zero_le_one⟩, ?_, fun _ => rfl, fun t => ⟨fun _ => rfl, ?_, fun h => ?_⟩⟩
          · intro h; simp [Shape.unionArea] at h
          · intro h; simp [Shape.area] at h
          · simp [check_containment, Shape.interArea, Shape.area] at h
      | region sb =>
          constructor
          · rw [calculate_iou_region]
            split
            · rename_i hu
              constructor
              · positivity
              · rw [div_le_one hu]
                exact_mod_cast Finset.card_le_card (Finset.inter_subset_union)
            · exact ⟨le_refl 0, zero_le_one⟩
          constructor
          · intro h
            rw [calculate_iou_region]
            rw [Shape.unionArea] at h
            have h0 : (((sa ∪ sb).card : ℚ)) = 0 := by
              exact Option.some_injective ℚ h
            rw [h0]
            simp
          constructor
          · rintro (h | h) <;> simp [Shape.interArea, Shape.unionArea] at h
          · intro t
            refine ⟨?_, ?_, ?_⟩
            · intro h
              rw [check_containment_region]
              rw [Shape.area] at h
              have h0 : ((sa.card : ℚ)) = 0 := Option.some_injective ℚ h
              rw [if_pos h0]
            · intro h; simp [Shape.area] at h
            · intro h
              rw [check_containment_region] at h
              by_cases h0 : ((sa.card : ℚ)) = 0
              · rw [if_pos h0] at h; exact absurd h (by simp)
              · rw [if_neg h0] at h
                have ht : t ≤ ((sa ∩ sb).card : ℚ) / (sa.card : ℚ) :=
                  of_decide_eq_true h
                have hpos : (0 : ℚ) < (sa.card : ℚ) := by
                  rcases lt_or_eq_of_le (Nat.cast_nonneg sa.card : (0:ℚ) ≤ (sa.card : ℚ)) with hlt | heq
                  · exact hlt
                  · exact absurd heq.symm h0
                have hle : ((sa ∩ sb).card : ℚ) / (sa.card : ℚ) ≤ 1 := by
                  rw [div_le_one hpos]
                  exact_mod_cast Finset.card_le_card Finset.inter_subset_left
                exact le_trans ht hle

/-- Witness for C8: a valid region against a malformed geometry: the
intersection computation fails and the IoU is `0.0`, and a malformed
slot polygon is reported as not contained. -/
theorem iou_containment_safety_witness :
    calculate_iou (Shape.region {(0, 0)}) Shape.invalid = 0
    ∧ check_containment Shape.invalid (Shape.region {(0, 0)}) (1 / 2) = false :=
  ⟨(iou_containment_safety (Shape.region {(0, 0)}) Shape.invalid).2.2.1 (Or.inr rfl),
   ((iou_containment_safety Shape.invalid (Shape.region {(0, 0)})).2.2.2 (1 / 2)).2.1 rfl⟩

/-- C9: the IoU of a non-degenerate polygon with itself is `1.0`, and
the IoU is symmetric in its two arguments. -/
theorem iou_self_eq_one_and_symm :
    (∀ s : Finset Cell, s.Nonempty →
        calculate_iou (Shape.region s) (Shape.region s) = 1)
    ∧ ∀ a b : Shape, calculate_iou a b = calculate_iou b a := by
  constructor
  · intro s hs
    rw [calculate_iou_region, Finset.inter_self, Finset.union_self]
    have hpos : (0 : ℚ) < (s.card : ℚ) := by
      exact_mod_cast Finset.card_pos.mpr hs
    rw [if_pos hpos]
    exact div_self (ne_of_gt hpos)
  · intro a b
    cases a with
    | invalid => cases b <;> rfl
    | region sa =>
        cases b with
        | invalid => rfl
        | region sb =>
            rw [calculate_iou_region, calculate_iou_region,
              Finset.inter_comm, Finset.union_comm]

/-- Witness for C9: the IoU of a concrete one-cell region with itself is
`1.0`. -/
theorem iou_self_eq_one_witness :
    ({((0 : ℕ), (0 : ℕ))} : Finset Cell).Nonempty
    ∧ calculate_iou (Shape.region {(0, 0)}) (Shape.region {(0, 0)}) = 1 :=
  ⟨⟨(0, 0), by decide⟩, iou_self_eq_one_and_symm.1 {(0, 0)} ⟨(0, 0), by decide⟩⟩

/-- C1 (code evidence): with confirmation window `3`, feeding the sample
sequence true, true, true, false, true, true, true to the tracker
returns "occupied" at the third update and again at the seventh, with no
"free": the tracker re-reports "occupied" every time the window is fully
true, it does not remember that the status was already confirmed. -/
theorem occupancy_tracker_reemits_occupied :
    OccupancyTracker.run ⟨3, []⟩ [true, true, true, false, true, true, true]
      = [none, none, some "occupied", none, none, none, some "occupied"] := by
  decide

/-- C7 (counterexample): the lot rollup of `get_video_analytics` labels
a lot with occupancy rate `1.0` as "busy", not "full": its threshold
ladder has no "full" label at all. -/
theorem analytics_lot_rollup_has_no_full_label :
    lot_status_analytics 1 = "busy" ∧ lot_status_analytics 1 ≠ "full" := by
  have h : lot_status_analytics 1 = "busy" := by norm_num [lot_status_analytics]
  refine ⟨h, ?_⟩
  rw [h]
  decide

/-- C7 (amended): the lot rollup of `get_lots_parking_status` labels
rates by the ladder full at `0.95`, busy at `0.7`, moderate at `0.3`,
else free, with inclusive comparisons evaluated high to low; the lot
rollup of `get_video_analytics` instead uses busy above `0.7`, moderate
above `0.3`, else free, with strict comparisons and no "full" label. -/
theorem lot_status_thresholds :
    ∀ rate : ℚ,
      (95 / 100 ≤ rate → lot_status rate = "full")
      ∧ (7 / 10 ≤ rate → rate < 95 / 100 → lot_status rate = "busy")
      ∧ (3 / 10 ≤ rate → rate < 7 / 10 → lot_status rate = "moderate")
      ∧ (rate < 3 / 10 → lot_status rate = "free")
      ∧ (7 / 10 < rate → lot_status_analytics rate = "busy")
      ∧ (3 / 10 < rate → rate ≤ 7 / 10 → lot_status_analytics rate = "moderate")
      ∧ (rate ≤ 3 / 10 → lot_status_analytics rate = "free")
      ∧ lot_status_analytics rate ≠ "full" := by
  intro rate
  refine ⟨?_, ?_, ?_, ?_, ?_, ?_, ?_, ?_⟩
  · intro h; rw [lot_status, if_pos h]
  · intro h1 h2; rw [lot_status, if_neg (by linarith), if_pos h1]
  · intro h1 h2
    rw [lot_status, if_neg (by linarith), if_neg (by linarith), if_pos h1]
  · intro h
    rw [lot_status, if_neg (by linarith), if_neg (by linarith),
      if_neg (by linarith)]
  · intro h; rw [lot_status_analytics, if_pos h]
  · intro h1 h2
    rw [lot_status_analytics, if_neg (by linarith), if_pos h1]
  · intro h
    rw [lot_status_analytics, if_neg (by linarith), if_neg (by linarith)]
  · rw [lot_status_analytics]
    split
    · decide
    split
    · decide
    · decide

/-- Witness for C7: a fully occupied lot is labelled "full" by the
current-status rollup and "busy" by the analytics rollup. -/
theorem lot_status_thresholds_witness :
    lot_status 1 = "full" ∧ lot_status_analytics 1 = "busy" :=
  ⟨(lot_status_thresholds 1).1 (by norm_num),
   (lot_status_thresholds 1).2.2.2.2.1 (by norm_num)⟩

/-- C4 (counterexample): the video-processing pipeline does not surface
a "no data" result when the camera has no parking slots: the task raises
`ValueError("No parking slots defined for this camera")`, modelled here
as an error result. -/
theorem process_video_task_raises_without_slots :
    process_video_task_slot_guard []
      = Except.error "No parking slots defined for this camera" := rfl

/-- C4 (amended): the aggregation endpoints surface explicit no-data
variants without raising ("no_data" without a processed video,
"no_slots" without slots, "no_lots" without lots), while the
video-processing pipeline raises a `ValueError` exactly when the camera
has no parking slots. -/
theorem no_data_variants :
    (∀ slots dets thr,
        (get_current_parking_status false slots dets thr).1 = "no_data")
    ∧ (∀ dets thr,
        (get_current_parking_status true [] dets thr).1 = "no_slots")
    ∧ (∀ lots dets, lots_status_variant false lots dets = "no_data")
    ∧ (∀ dets, lots_status_variant true [] dets = "no_lots")
    ∧ ∀ slots,
        process_video_task_slot_guard slots
            = Except.error "No parking slots defined for this camera"
          ↔ slots = [] := by
  refine ⟨?_, ?_, ?_, ?_, ?_⟩
  · intro slots dets thr; rfl
  · intro dets thr; rfl
  · intro lots dets; rfl
  · intro dets; rfl
  · intro slots
    cases slots with
    | nil => simp [process_video_task_slot_guard]
    | cons s ss => simp [process_video_task_slot_guard]

/-! Membership characterization of the per-frame occupied-slot set. -/

theorem mem_mark_occupied (thr : ℚ) (det : Shape) (slots : List (ℕ × Shape)) :
    ∀ (occ : Finset ℕ) (x : ℕ),
      x ∈ mark_occupied thr det occ slots ↔
        x ∈ occ ∨ ∃ sh, (x, sh) ∈ slots ∧ thr ≤ calculate_iou det sh := by
  induction slots with
  | nil => intro occ x; simp [mark_occupied]
  | cons s ss ih =>
      intro occ x
      have hstep :
          mark_occupied thr det occ (s :: ss)
            = mark_occupied thr det
                (if thr ≤ calculate_iou det s.2 then insert s.1 occ else occ) ss := rfl
      rw [hstep, ih]
      by_cases hc : thr ≤ calculate_iou det s.2
      · rw [if_pos hc]
        simp only [Finset.mem_insert, List.mem_cons]
        constructor
        · rintro ((rfl | hx) | ⟨sh, hmem, hiou⟩)
          · exact Or.inr ⟨s.2, Or.inl (Prod.ext rfl rfl), hc⟩
          · exact Or.inl hx
          · exact Or.inr ⟨sh, Or.inr hmem, hiou⟩
        · rintro (hx | ⟨sh, (heq | hmem), hiou⟩)
          · exact Or.inl (Or.inr hx)
          · refine Or.inl (Or.inl ?_)
            exact congrArg Prod.fst heq
          · exact Or.inr ⟨sh, hmem, hiou⟩
      · rw [if_neg hc]
        simp only [List.mem_cons]
        constructor
        · rintro (hx | ⟨sh, hmem, hiou⟩)
          · exact Or.inl hx
          · exact Or.inr ⟨sh, Or.inr hmem, hiou⟩
        · rintro (hx | ⟨sh, (heq | hmem), hiou⟩)
          · exact Or.inl hx
          · exfalso
            have hsh : sh = s.2 := congrArg Prod.snd heq
            rw [hsh] at hiou
            exact hc hiou
          · exact Or.inr ⟨sh, hmem, hiou⟩

theorem mem_occupiedSlots_go (slots : List (ℕ × Shape)) (thr : ℚ) :
    ∀ (dets : List Shape) (occ : Finset ℕ) (x : ℕ),
      x ∈ dets.foldl (fun o det => mark_occupied thr det o slots) occ ↔
        x ∈ occ ∨ ∃ sh, (x, sh) ∈ slots ∧ ∃ d ∈ dets, thr ≤ calculate_iou d sh := by
  intro dets
  induction dets with
  | nil => intro occ x; simp
  | cons d ds ih =>
      intro occ x
      rw [List.foldl_cons, ih, mem_mark_occupied]
      constructor
      · rintro ((hx | ⟨sh, hmem, hiou⟩) | ⟨sh, hmem, d', hd', hiou⟩)
        · exact Or.inl hx
        · exact Or.inr ⟨sh, hmem, d, List.mem_cons_self d ds, hiou⟩
        · exact Or.inr ⟨sh, hmem, d', List.mem_cons_of_mem d hd', hiou⟩
      · rintro (hx | ⟨sh, hmem, d', hd', hiou⟩)
        · exact Or.inl (Or.inl hx)
        · rcases List.mem_cons.mp hd' with rfl | hd'
          · exact Or.inl (Or.inr ⟨sh, hmem, hiou⟩)
          · exact Or.inr ⟨sh, hmem, d', hd', hiou⟩

theorem mem_occupiedSlots (dets : List Shape) (slots : List (ℕ × Shape))
    (thr : ℚ) (x : ℕ) :
    x ∈ occupiedSlots dets slots thr ↔
      ∃ sh, (x, sh) ∈ slots ∧ ∃ d ∈ dets, thr ≤ calculate_iou d sh := by
  rw [occupiedSlots, mem_occupiedSlots_go]
  simp

theorem occupiedSlots_card_le (dets : List Shape) (slots : List (ℕ × Shape))
    (thr : ℚ) :
    (occupiedSlots dets slots thr).card ≤ slots.length := by
  have hsub : occupiedSlots dets slots thr ⊆ (slots.map Prod.fst).toFinset := by
    intro x hx
    rcases (mem_occupiedSlots dets slots thr x).mp hx with ⟨sh, hmem, _⟩
    rw [List.mem_toFinset, List.mem_map]
    exact ⟨(x, sh), hmem, rfl⟩
  calc (occupiedSlots dets slots thr).card
      ≤ (slots.map Prod.fst).toFinset.card := Finset.card_le_card hsub
    _ ≤ (slots.map Prod.fst).length := List.toFinset_card_le _
    _ = slots.length := List.length_map _ _

/-- C2 (counterexample): a single detection overlapping two slots with
IoU at least the threshold marks both slots occupied in the per-frame
aggregation: the occupied set built from a one-detection frame has two
slots. -/
theorem single_detection_marks_two_slots :
    occupiedSlots [Shape.region {(1, 2), (3, 4)}]
        [(1, Shape.region {(1, 2)}), (2, Shape.region {(3, 4)})] (3 / 10)
      = {1, 2}
    ∧ (occupiedSlots [Shape.region {(1, 2), (3, 4)}]
        [(1, Shape.region {(1, 2)}), (2, Shape.region {(3, 4)})] (3 / 10)).card
      = 2 := by
  have h1 : calculate_iou (Shape.region {(1, 2), (3, 4)}) (Shape.region {(1, 2)})
      = 1 / 2 := by
    rw [calculate_iou_region]
    have hi : ((({(1, 2), (3, 4)} : Finset Cell) ∩ {(1, 2)}).card : ℚ) = 1 := by rfl
    have hu : ((({(1, 2), (3, 4)} : Finset Cell) ∪ {(1, 2)}).card : ℚ) = 2 := by rfl
    rw [hi, hu]
    norm_num
  have h2 : calculate_iou (Shape.region {(1, 2), (3, 4)}) (Shape.region {(3, 4)})
      = 1 / 2 := by
    rw [calculate_iou_region]
    have hi : ((({(1, 2), (3, 4)} : Finset Cell) ∩ {(3, 4)}).card : ℚ) = 1 := by rfl
    have hu : ((({(1, 2), (3, 4)} : Finset Cell) ∪ {(3, 4)}).card : ℚ) = 2 := by rfl
    rw [hi, hu]
    norm_num
  have hset :
      occupiedSlots [Shape.region {(1, 2), (3, 4)}]
          [(1, Shape.region {(1, 2)}), (2, Shape.region {(3, 4)})] (3 / 10)
        = {1, 2} := by
    have hstep :
        occupiedSlots [Shape.region {(1, 2), (3, 4)}]
            [(1, Shape.region {(1, 2)}), (2, Shape.region {(3, 4)})] (3 / 10)
          = mark_occupied (3 / 10) (Shape.region {(1, 2), (3, 4)}) ∅
              [(1, Shape.region {(1, 2)}), (2, Shape.region {(3, 4)})] := rfl
    rw [hstep, mark_occupied, List.foldl_cons, List.foldl_cons, List.foldl_nil]
    norm_num [h1, h2]
    decide
  refine ⟨hset, ?_⟩
  rw [hset]
  decide

/-- C2 (amended): in the per-frame occupancy aggregation every detection
is compared against every slot independently (the best-match slot
matcher is not involved), so a single detection can mark several slots;
a slot is occupied in a frame exactly when at least one detection of the
frame has IoU at least the threshold with it. -/
theorem occupied_iff_detection_meets_threshold :
    ∀ (dets : List Shape) (slots : List (ℕ × Shape)) (thr : ℚ) (x : ℕ),
      x ∈ occupiedSlots dets slots thr ↔
        ∃ sh, (x, sh) ∈ slots ∧ ∃ d ∈ dets, thr ≤ calculate_iou d sh :=
  fun dets slots thr x => mem_occupiedSlots dets slots thr x

/-! Invariants of the best-slot matcher fold. -/

theorem fbs_snd_mono (det : Shape) (thr : ℚ) :
    ∀ (l : List (ℕ × Shape)) (b : Option ℕ × ℚ),
      b.2 ≤ (l.foldl (fbs_step det thr) b).2 := by
  intro l
  induction l with
  | nil => intro b; exact le_refl _
  | cons s ss ih =>
      intro b
      rw [List.foldl_cons]
      refine le_trans ?_ (ih (fbs_step det thr b s))
      rw [fbs_step]
      split
      · rename_i hc; exact le_of_lt hc.1
      · exact le_refl _

theorem fbs_result (det : Shape) (thr : ℚ) :
    ∀ (l : List (ℕ × Shape)) (b : Option ℕ × ℚ),
      l.foldl (fbs_step det thr) b = b
      ∨ ∃ id sh, (id, sh) ∈ l
          ∧ l.foldl (fbs_step det thr) b = (some id, calculate_iou det sh)
          ∧ thr ≤ calculate_iou det sh
          ∧ b.2 < calculate_iou det sh := by
  intro l
  induction l with
  | nil => intro b; exact Or.inl rfl
  | cons s ss ih =>
      intro b
      rw [List.foldl_cons]
      by_cases hc : b.2 < calculate_iou det s.2 ∧ thr ≤ calculate_iou det s.2
      · have hstep : fbs_step det thr b s = (some s.1, calculate_iou det s.2) := by
          rw [fbs_step, if_pos hc]
        rw [hstep]
        rcases ih (some s.1, calculate_iou det s.2) with heq | ⟨id, sh, hmem, heq, hthr, hlt⟩
        · refine Or.inr ⟨s.1, s.2, List.mem_cons_self s ss, heq, hc.2, hc.1⟩
        · refine Or.inr ⟨id, sh, List.mem_cons_of_mem s hmem, heq, hthr, ?_⟩
          exact lt_trans hc.1 hlt
      · have hstep : fbs_step det thr b s = b := by
          rw [fbs_step, if_neg hc]
        rw [hstep]
        rcases ih b with heq | ⟨id, sh, hmem, heq, hthr, hlt⟩
        · exact Or.inl heq
        · exact Or.inr ⟨id, sh, List.mem_cons_of_mem s hmem, heq, hthr, hlt⟩

theorem fbs_dominates (det : Shape) (thr : ℚ) :
    ∀ (l : List (ℕ × Shape)) (b : Option ℕ × ℚ), ∀ p ∈ l,
      calculate_iou det p.2 < thr
      ∨ calculate_iou det p.2 ≤ (l.foldl (fbs_step det thr) b).2 := by
  intro l
  induction l with
  | nil => intro b p hp; exact absurd hp (List.not_mem_nil p)
  | cons s ss ih =>
      intro b p hp
      rw [List.foldl_cons]
      rcases List.mem_cons.mp hp with rfl | hp
      · by_cases hc : b.2 < calculate_iou det p.2 ∧ thr ≤ calculate_iou det p.2
        · have hstep : fbs_step det thr b p = (some p.1, calculate_iou det p.2) := by
            rw [fbs_step, if_pos hc]
          rw [hstep]
          exact Or.inr (fbs_snd_mono det thr ss (some p.1, calculate_iou det p.2))
        · have hstep : fbs_step det thr b p = b := by
            rw [fbs_step, if_neg hc]
          rw [hstep]
          rcases not_and_or.mp hc with hb | hthr
          · refine Or.inr (le_trans (not_lt.mp hb) ?_)
            exact fbs_snd_mono det thr ss b
          · exact Or.inl (not_le.mp hthr)
      · exact ih (fbs_step det thr b s) p hp

/-- C3 (amended): the slot matcher is sound: a returned match has IoU at
least the threshold, strictly positive IoU, its IoU is realized by a
slot in the table, and no slot has a larger IoU; and it is complete for
strictly dominant slots of positive IoU: a slot whose IoU meets the
threshold, is strictly positive, and strictly exceeds the IoU of every
other slot is the returned match.  A slot of IoU `0.0` is never matched,
even when the threshold is `0.0`, because the running best IoU starts at
`0.0` and must strictly increase. -/
theorem find_best_slot_spec :
    (∀ (det : Shape) (slots : List (ℕ × Shape)) (thr : ℚ) (id : ℕ) (q : ℚ),
        find_best_slot det slots thr = (some id, q) →
          thr ≤ q ∧ 0 < q
          ∧ (∃ sh, (id, sh) ∈ slots ∧ calculate_iou det sh = q)
          ∧ ∀ p ∈ slots, calculate_iou det p.2 ≤ q)
    ∧ ∀ (det : Shape) (slots : List (ℕ × Shape)) (thr : ℚ) (id : ℕ) (sh : Shape),
        (id, sh) ∈ slots →
        thr ≤ calculate_iou det sh →
        0 < calculate_iou det sh →
        (∀ p ∈ slots, p.1 ≠ id → calculate_iou det p.2 < calculate_iou det sh) →
        (find_best_slot det slots thr).1 = some id := by
  constructor
  · intro det slots thr id q heq
    rcases fbs_result det thr slots (none, 0) with h | ⟨id', sh, hmem, h, hthr, hlt⟩
    · rw [find_best_slot] at heq
      rw [h] at heq
      exact absurd (congrArg Prod.fst heq) (by simp)
    · rw [find_best_slot] at heq
      rw [h] at heq
      have hid : id' = id := by
        have := congrArg Prod.fst heq
        simpa using this
      have hq : calculate_iou det sh = q := congrArg Prod.snd heq
      subst hid
      refine ⟨hq ▸ hthr, hq ▸ hlt, ⟨sh, hmem, hq⟩, ?_⟩
      intro p hp
      rcases fbs_dominates det thr slots (none, 0) p hp with hlow | hdom
      · calc calculate_iou det p.2 ≤ thr := le_of_lt hlow
          _ ≤ q := hq ▸ hthr
      · rw [h] at hdom
        exact hq ▸ hdom
  · intro det slots thr id sh hmem hthr hpos hmax
    have hdom := fbs_dominates det thr slots (none, 0) (id, sh) hmem
    rcases hdom with hlow | hdom
    · exact absurd hthr (not_le.mpr hlow)
    · rcases fbs_result det thr slots (none, 0) with h | ⟨id', sh', hmem', h, hthr', hlt'⟩
      · rw [find_best_slot]
        exfalso
        rw [h] at hdom
        exact absurd (lt_of_lt_of_le hpos hdom) (by simp)
      · rw [find_best_slot, h]
        by_cases hid : id' = id
        · rw [hid]
        · exfalso
          have hlt2 : calculate_iou det sh' < calculate_iou det sh :=
            hmax (id', sh') hmem' hid
          rw [h] at hdom
          exact absurd (lt_of_le_of_lt hdom hlt2) (lt_irrefl _)

/-- Witness for C3: with two slots of IoU one half and zero against the
detection and threshold `0.3`, the matcher returns the first slot. -/
theorem find_best_slot_spec_witness :
    (find_best_slot (Shape.region {(1, 2), (3, 4)})
        [(1, Shape.region {(1, 2)}), (2, Shape.region {(5, 6)})] (3 / 10)).1
      = some 1 := by
  have h1 : calculate_iou (Shape.region {(1, 2), (3, 4)}) (Shape.region {(1, 2)})
      = 1 / 2 := by
    rw [calculate_iou_region]
    have hi : ((({(1, 2), (3, 4)} : Finset Cell) ∩ {(1, 2)}).card : ℚ) = 1 := by rfl
    have hu : ((({(1, 2), (3, 4)} : Finset Cell) ∪ {(1, 2)}).card : ℚ) = 2 := by rfl
    rw [hi, hu]
    norm_num
  have h2 : calculate_iou (Shape.region {(1, 2), (3, 4)}) (Shape.region {(5, 6)})
      = 0 := by
    rw [calculate_iou_region]
    have hi : ((({(1, 2), (3, 4)} : Finset Cell) ∩ {(5, 6)}).card : ℚ) = 0 := by rfl
    have hu : ((({(1, 2), (3, 4)} : Finset Cell) ∪ {(5, 6)}).card : ℚ) = 3 := by rfl
    rw [hi, hu]
    norm_num
  refine find_best_slot_spec.2 (Shape.region {(1, 2), (3, 4)})
      [(1, Shape.region {(1, 2)}), (2, Shape.region {(5, 6)})] (3 / 10)
      1 (Shape.region {(1, 2)}) (by simp) (by rw [h1]; norm_num)
      (by rw [h1]; norm_num) ?_
  intro p hp hne
  rcases List.mem_cons.mp hp with rfl | hp
  · exact absurd rfl hne
  · rcases List.mem_cons.mp hp with rfl | hp
    · rw [h1]
      have hps : (2, Shape.region ({(5, 6)} : Finset Cell)).2
          = Shape.region {(5, 6)} := rfl
      rw [hps, h2]
      norm_num
    · exact absurd hp (List.not_mem_nil p)

/-- C3 (counterexample): with threshold `0.0` and a single slot disjoint
from the detection, the sole candidate trivially has the greatest IoU
and its IoU `0.0` meets the threshold, yet the matcher returns no match:
the code additionally requires the IoU to strictly exceed the initial
best of `0.0`. -/
theorem matcher_rejects_zero_iou_at_zero_threshold :
    calculate_iou (Shape.region {(1, 2)}) (Shape.region {(3, 4)}) = 0
    ∧ (0 : ℚ) ≤ calculate_iou (Shape.region {(1, 2)}) (Shape.region {(3, 4)})
    ∧ find_best_slot (Shape.region {(1, 2)}) [(1, Shape.region {(3, 4)})] 0
        = (none, 0) := by
  have h0 : calculate_iou (Shape.region {(1, 2)}) (Shape.region {(3, 4)}) = 0 := by
    rw [calculate_iou_region]
    have hi : ((({(1, 2)} : Finset Cell) ∩ {(3, 4)}).card : ℚ) = 0 := by rfl
    have hu : ((({(1, 2)} : Finset Cell) ∪ {(3, 4)}).card : ℚ) = 2 := by rfl
    rw [hi, hu]
    norm_num
  refine ⟨h0, le_of_eq h0.symm, ?_⟩
  rw [find_best_slot, List.foldl_cons, List.foldl_nil, fbs_step]
  have hps : ((1 : ℕ), Shape.region ({(3, 4)} : Finset Cell)).2
      = Shape.region {(3, 4)} := rfl
  rw [if_neg]
  rw [hps, h0]
  simp

/-! Frame membership of the occupancy timeline. -/

theorem mem_insertSorted (n x : ℕ) :
    ∀ l : List ℕ, x ∈ insertSorted n l ↔ x = n ∨ x ∈ l := by
  intro l
  induction l with
  | nil => simp [insertSorted]
  | cons m ms ih =>
      rw [insertSorted]
      split
      · simp
      · rw [List.mem_cons, ih, List.mem_cons]
        tauto

theorem mem_sortNat (x : ℕ) : ∀ l : List ℕ, x ∈ sortNat l ↔ x ∈ l := by
  intro l
  induction l with
  | nil => simp [sortNat]
  | cons m ms ih =>
      have h : sortNat (m :: ms) = insertSorted m (sortNat ms) := rfl
      rw [h, mem_insertSorted, ih, List.mem_cons]

theorem occupancy_timeline_frames (dets : List Det) (slots : List (ℕ × Shape))
    (thr : ℚ) :
    (occupancy_timeline dets slots thr).map (fun e => e.frame_number)
      = sortNat ((dets.map (fun d => d.frame_number)).dedup) := by
  rw [occupancy_timeline, List.map_map]
  exact List.map_id _

/-- C5 (amended): a frame number appears in the occupancy timeline
exactly when it has at least one detection: frames analyzed without any
detection are silently absent from the timeline rather than reported
with an explicit no-detections entry. -/
theorem timeline_frame_iff_has_detection :
    ∀ (dets : List Det) (slots : List (ℕ × Shape)) (thr : ℚ) (f : ℕ),
      (∃ e ∈ occupancy_timeline dets slots thr, e.frame_number = f)
        ↔ ∃ d ∈ dets, d.frame_number = f := by
  intro dets slots thr f
  have h1 : (∃ e ∈ occupancy_timeline dets slots thr, e.frame_number = f)
      ↔ f ∈ (occupancy_timeline dets slots thr).map (fun e => e.frame_number) := by
    rw [List.mem_map]
  rw [h1, occupancy_timeline_frames, mem_sortNat, List.mem_dedup, List.mem_map]

/-- C5 (counterexample): with detections only at frames `0` and `2`, the
produced timeline has exactly the two entries for frames `0` and `2`:
the intermediate analyzed frame `1`, which has zero detections, does not
appear at all, with any status. -/
theorem timeline_omits_zero_detection_frame :
    ((occupancy_timeline
        [⟨0, Shape.region {(1, 2)}⟩, ⟨2, Shape.region {(1, 2)}⟩]
        [(1, Shape.region {(1, 2)})] (3 / 10)).map (fun e => e.frame_number))
      = [0, 2]
    ∧ ∀ e ∈ occupancy_timeline
        [⟨0, Shape.region {(1, 2)}⟩, ⟨2, Shape.region {(1, 2)}⟩]
        [(1, Shape.region {(1, 2)})] (3 / 10), e.frame_number ≠ 1 := by
  have hframes : ((occupancy_timeline
      [⟨0, Shape.region {(1, 2)}⟩, ⟨2, Shape.region {(1, 2)}⟩]
      [(1, Shape.region {(1, 2)})] (3 / 10)).map (fun e => e.frame_number))
      = [0, 2] := by
    rw [occupancy_timeline_frames]
    decide
  refine ⟨hframes, ?_⟩
  intro e he heq
  have h1 : (1 : ℕ) ∈ (occupancy_timeline
      [⟨0, Shape.region {(1, 2)}⟩, ⟨2, Shape.region {(1, 2)}⟩]
      [(1, Shape.region {(1, 2)})] (3 / 10)).map (fun e => e.frame_number) :=
    List.mem_map.mpr ⟨e, he, heq⟩
  rw [hframes] at h1
  simp at h1

/-! Lot membership and the lot rollup counters. -/

theorem slot_to_lot_mem_lots (lots : List (ℕ × Shape)) (p : Shape) (lid : ℕ)
    (h : slot_to_lot lots p = some lid) : lid ∈ lots.map Prod.fst := by
  rw [slot_to_lot] at h
  rcases Option.map_eq_some'.mp h with ⟨lp, hfind, hfst⟩
  rw [List.mem_map]
  exact ⟨lp, List.mem_of_find?_eq_some hfind, hfst⟩

theorem lot_rollup_counts_go (lots : List (ℕ × Shape)) (occ : Finset ℕ) (lid : ℕ) :
    ∀ (slots : List (ℕ × Shape)) (data : ℕ → ℕ × ℕ),
      (slots.foldl (lot_rollup_step lots occ) data) lid
        = ((data lid).1
              + (slots.filter
                  (fun s => decide (slot_to_lot lots s.2 = some lid))).length,
           (data lid).2
              + (slots.filter
                  (fun s => decide (slot_to_lot lots s.2 = some lid
                      ∧ s.1 ∈ occ))).length) := by
  intro slots
  induction slots with
  | nil => intro data; simp
  | cons s ss ih =>
      intro data
      rw [List.foldl_cons, ih]
      rcases hsl : slot_to_lot lots s.2 with _ | l'
      · have hstep : lot_rollup_step lots occ data s = data := by
          rw [lot_rollup_step, hsl]
        rw [hstep, List.filter_cons, List.filter_cons]
        simp [hsl]
      · have hmem : l' ∈ lots.map Prod.fst := slot_to_lot_mem_lots lots s.2 l' hsl
        have hstep : (lot_rollup_step lots occ data s) lid
            = if lid = l' then
                ((data lid).1 + 1,
                 (data lid).2 + (if s.1 ∈ occ then 1 else 0))
              else data lid := by
          rw [lot_rollup_step, hsl]
          dsimp only
          rw [if_pos hmem]
        rw [hstep, List.filter_cons, List.filter_cons]
        by_cases hl : lid = l'
        · subst hl
          rw [if_pos rfl]
          by_cases ho : s.1 ∈ occ
          · simp [hsl, ho]
            constructor
            · omega
            · omega
          · simp [hsl, ho]
            omega
        · rw [if_neg hl]
          have hne : ¬ (slot_to_lot lots s.2 = some lid) := by
            rw [hsl]
            intro hc
            exact hl (Option.some_injective ℕ hc).symm
          simp [hne]

/-- C6: a slot is assigned to the first lot, in iteration order, whose
containment coverage of it reaches one half; with no qualifying lot it
stays unassigned; and the lot rollup counters credit each slot only to
the lot it resolved to: a lot's capacity is the number of slots assigned
to it and its occupied count is the number of those slots that are
occupied, so an unassigned slot contributes to no lot. -/
theorem slot_lot_assignment_spec :
    (∀ (lots : List (ℕ × Shape)) (p : Shape) (lid : ℕ),
        slot_to_lot lots p = some lid →
          ∃ pre sh post, lots = pre ++ (lid, sh) :: post
            ∧ check_containment p sh (1 / 2) = true
            ∧ ∀ q ∈ pre, check_containment p q.2 (1 / 2) = false)
    ∧ (∀ (lots : List (ℕ × Shape)) (p : Shape),
        slot_to_lot lots p = none
          ↔ ∀ q ∈ lots, check_containment p q.2 (1 / 2) = false)
    ∧ ∀ (lots slots : List (ℕ × Shape)) (occ : Finset ℕ) (lid : ℕ),
        (lot_rollup_counts lots slots occ lid).1
            = (slots.filter
                (fun s => decide (slot_to_lot lots s.2 = some lid))).length
        ∧ (lot_rollup_counts lots slots occ lid).2
            = (slots.filter
                (fun s => decide (slot_to_lot lots s.2 = some lid
                    ∧ s.1 ∈ occ))).length := by
  refine ⟨?_, ?_, ?_⟩
  · intro lots p lid h
    rw [slot_to_lot] at h
    rcases Option.map_eq_some'.mp h with ⟨lp, hfind, hfst⟩
    rcases List.find?_eq_some.mp hfind with ⟨hp, pre, post, hsplit, hpre⟩
    refine ⟨pre, lp.2, post, ?_, hp, ?_⟩
    · rw [hsplit]
      have : lp = (lid, lp.2) := by
        rw [← hfst]
      rw [← this]
    · intro q hq
      have := hpre q hq
      rwa [Bool.not_eq_true'] at this
  · intro lots p
    rw [slot_to_lot]
    constructor
    · intro h q hq
      have hfind : lots.find? (fun lp => check_containment p lp.2 (1 / 2)) = none :=
        Option.map_eq_none'.mp h
      have := List.find?_eq_none.mp hfind q hq
      rwa [Bool.not_eq_true] at this
    · intro h
      rw [Option.map_eq_none']
      rw [List.find?_eq_none]
      intro q hq
      rw [h q hq]
      simp
  · intro lots slots occ lid
    have := lot_rollup_counts_go lots occ lid slots (fun _ => (0, 0))
    rw [lot_rollup_counts, this]
    constructor
    · simp
    · simp

/-- Witness for C6: a one-cell slot fully contained in a ten-by-ten lot
is assigned to that lot, so it appears first in the decomposition of the
lot table. -/
theorem slot_lot_assignment_witness :
    ∃ pre sh post,
      ([((7 : ℕ), Shape.region (Finset.range 10 ×ˢ Finset.range 10))]
          : List (ℕ × Shape))
        = pre ++ ((7 : ℕ), sh) :: post
      ∧ check_containment (Shape.region {(1, 2)}) sh (1 / 2) = true
      ∧ ∀ q ∈ pre, check_containment (Shape.region {(1, 2)}) q.2 (1 / 2) = false := by
  have hc : check_containment (Shape.region {(1, 2)})
      (Shape.region (Finset.range 10 ×ˢ Finset.range 10)) (1 / 2) = true := by
    rw [check_containment_region]
    have ha : ((({(1, 2)} : Finset Cell)).card : ℚ) = 1 := by rfl
    have hi : ((({(1, 2)} : Finset Cell)
        ∩ (Finset.range 10 ×ˢ Finset.range 10)).card : ℚ) = 1 := by rfl
    rw [ha, hi]
    norm_num
  have hassign : slot_to_lot
      [((7 : ℕ), Shape.region (Finset.range 10 ×ˢ Finset.range 10))]
      (Shape.region {(1, 2)}) = some 7 := by
    have hinv : ((2 : ℚ))⁻¹ = 1 / 2 := by norm_num
    have hc3 : check_containment (Shape.region {(1, 2)})
        (Shape.region (Finset.range 10 ×ˢ Finset.range 10)) (2⁻¹ : ℚ) = true := by
      rw [hinv]
      exact hc
    simp [slot_to_lot, List.find?, hc, hc3]
  exact slot_lot_assignment_spec.1
    [((7 : ℕ), Shape.region (Finset.range 10 ×ˢ Finset.range 10))]
    (Shape.region {(1, 2)}) 7 hassign

/-! Bounds on the occupancy rates of the statistics endpoints. -/

theorem occupancy_counts_sum (latest : ℕ → Option String) :
    ∀ (sids : List ℕ) (c : ℕ × ℕ × ℕ),
      (sids.foldl (occupancy_counts_step latest) c).1
          + (sids.foldl (occupancy_counts_step latest) c).2.1
          + (sids.foldl (occupancy_counts_step latest) c).2.2
        = c.1 + c.2.1 + c.2.2 + sids.length := by
  intro sids
  induction sids with
  | nil => intro c; simp
  | cons sid ss ih =>
      intro c
      rw [List.foldl_cons, ih]
      have hstep : (occupancy_counts_step latest c sid).1
            + (occupancy_counts_step latest c sid).2.1
            + (occupancy_counts_step latest c sid).2.2
          = c.1 + c.2.1 + c.2.2 + 1 := by
        rw [occupancy_counts_step]
        rcases latest sid with _ | st
        · dsimp only
          omega
        · dsimp only
          by_cases h1 : st = "occupied"
          · rw [if_pos h1]
            dsimp only
            omega
          · rw [if_neg h1]
            by_cases h2 : st = "free"
            · rw [if_pos h2]
              dsimp only
              omega
            · rw [if_neg h2]
              dsimp only
              omega
      rw [hstep, List.length_cons]
      omega

theorem py_round_bounds (x : ℚ) (n : ℕ) (h0 : 0 ≤ x) (hn : x ≤ (n : ℚ)) :
    0 ≤ py_round x ∧ py_round x ≤ (n : ℤ) := by
  have hf0 : (0 : ℤ) ≤ ⌊x⌋ := Int.floor_nonneg.mpr h0
  have hfn : ⌊x⌋ ≤ (n : ℤ) := by
    have := Int.floor_le_floor hn
    rwa [Int.floor_natCast] at this
  have hsucc : 1 / 2 ≤ x - (⌊x⌋ : ℚ) → ⌊x⌋ + 1 ≤ (n : ℤ) := by
    intro hfrac
    have hlt : (⌊x⌋ : ℚ) < x := by linarith
    by_cases heq : ⌊x⌋ = (n : ℤ)
    · exfalso
      rw [heq] at hlt
      exact absurd (lt_of_lt_of_le hlt hn) (lt_irrefl _)
    · omega
  rw [py_round]
  split
  · exact ⟨hf0, hfn⟩
  · rename_i hge
    split
    · rename_i hgt
      exact ⟨by omega, hsucc (le_of_lt hgt)⟩
    · split
      · exact ⟨hf0, hfn⟩
      · rename_i hgt _
        exact ⟨by omega, hsucc (not_lt.mp hge)⟩
  
theorem round2_bounds (x : ℚ) (h0 : 0 ≤ x) (h1 : x ≤ 1) :
    0 ≤ round2 x ∧ round2 x ≤ 1 := by
  have hb : 0 ≤ py_round (x * 100) ∧ py_round (x * 100) ≤ ((100 : ℕ) : ℤ) := by
    refine py_round_bounds (x * 100) 100 (by positivity) (by push_cast; nlinarith)
  rw [round2]
  constructor
  · have : (0 : ℚ) ≤ (py_round (x * 100) : ℚ) := by exact_mod_cast hb.1
    positivity
  · rw [div_le_one (by norm_num)]
    have : (py_round (x * 100) : ℚ) ≤ ((100 : ℕ) : ℚ) := by exact_mod_cast hb.2
    push_cast at this
    exact this

theorem get_current_occupancy_stats_cons (latest : ℕ → Option String) (s : ℕ)
    (ss : List ℕ) :
    get_current_occupancy_stats (s :: ss) latest
      = ⟨(s :: ss).length,
         ((s :: ss).foldl (occupancy_counts_step latest) (0, 0, 0)).1,
         ((s :: ss).foldl (occupancy_counts_step latest) (0, 0, 0)).2.1,
         ((s :: ss).foldl (occupancy_counts_step latest) (0, 0, 0)).2.2,
         if 0 < (s :: ss).length
         then (((s :: ss).foldl (occupancy_counts_step latest) (0, 0, 0)).1 : ℚ)
              / (((s :: ss).length : ℕ) : ℚ) * 100
         else 0⟩ := rfl

theorem get_current_occupancy_stats_occupied_le (latest : ℕ → Option String)
    (sids : List ℕ) :
    (get_current_occupancy_stats sids latest).occupied_slots
      ≤ (get_current_occupancy_stats sids latest).total_slots := by
  cases sids with
  | nil => exact le_refl 0
  | cons s ss =>
      rw [get_current_occupancy_stats_cons]
      have hsum := occupancy_counts_sum latest (s :: ss) (0, 0, 0)
      dsimp only at hsum ⊢
      omega

/-- C10: the current-occupancy statistics endpoint reports its rate as a
percentage: `0.0` with no slots, and `occupied / total * 100`, a value
in `[0, 100]`, otherwise; it always equals one hundred times the
fraction `occupied / total` used by the video endpoints, whose reported
rates (the current-status summary and the per-frame timeline entries)
always lie in `[0, 1]`. -/
theorem occupancy_rate_scales :
    (∀ latest, (get_current_occupancy_stats [] latest).occupancy_rate = 0)
    ∧ (∀ (sids : List ℕ) (latest : ℕ → Option String), sids ≠ [] →
        (get_current_occupancy_stats sids latest).occupancy_rate
            = ((get_current_occupancy_stats sids latest).occupied_slots : ℚ)
              / ((get_current_occupancy_stats sids latest).total_slots : ℚ) * 100
          ∧ 0 ≤ (get_current_occupancy_stats sids latest).occupancy_rate
          ∧ (get_current_occupancy_stats sids latest).occupancy_rate ≤ 100)
    ∧ (∀ (sids : List ℕ) (latest : ℕ → Option String),
        (get_current_occupancy_stats sids latest).occupancy_rate
          = 100 * (if 0 < (get_current_occupancy_stats sids latest).total_slots
              then ((get_current_occupancy_stats sids latest).occupied_slots : ℚ)
                / ((get_current_occupancy_stats sids latest).total_slots : ℚ)
              else 0))
    ∧ (∀ (hv : Bool) (slots : List (ℕ × Shape)) (dets : List Shape) (thr : ℚ),
        0 ≤ (get_current_parking_status hv slots dets thr).2.occupancy_rate
        ∧ (get_current_parking_status hv slots dets thr).2.occupancy_rate ≤ 1)
    ∧ ∀ (dets : List Det) (slots : List (ℕ × Shape)) (thr : ℚ),
        ∀ e ∈ occupancy_timeline dets slots thr,
          0 ≤ e.occupancy_rate ∧ e.occupancy_rate ≤ 1 := by
  refine ⟨?_, ?_, ?_, ?_, ?_⟩
  · intro latest; rfl
  · intro sids latest hne
    cases sids with
    | nil => exact absurd rfl hne
    | cons s ss =>
        have hle := get_current_occupancy_stats_occupied_le latest (s :: ss)
        rw [get_current_occupancy_stats_cons] at hle ⊢
        dsimp only at hle ⊢
        have hlen : 0 < (s :: ss).length := Nat.succ_pos _
        rw [if_pos hlen]
        have hlenq : (0 : ℚ) < (((s :: ss).length : ℕ) : ℚ) := by
          exact_mod_cast hlen
        refine ⟨rfl, by positivity, ?_⟩
        have hfrac : (((s :: ss).foldl (occupancy_counts_step latest) (0, 0, 0)).1 : ℚ)
            / (((s :: ss).length : ℕ) : ℚ) ≤ 1 := by
          rw [div_le_one hlenq]
          exact_mod_cast hle
        nlinarith
  · intro sids latest
    cases sids with
    | nil => simp [get_current_occupancy_stats]
    | cons s ss =>
        rw [get_current_occupancy_stats_cons]
        dsimp only
        have hlen : 0 < (s :: ss).length := Nat.succ_pos _
        rw [if_pos hlen, if_pos hlen]
        ring
  · intro hv slots dets thr
    rw [get_current_parking_status]
    split
    · exact ⟨le_refl 0, zero_le_one⟩
    · split
      · exact ⟨le_refl 0, zero_le_one⟩
      · split
        · exact ⟨le_refl 0, zero_le_one⟩
        · dsimp only
          split
          · rename_i hlen
            have hlenq : (0 : ℚ) < ((slots.length : ℕ) : ℚ) := by
              exact_mod_cast hlen
            refine round2_bounds _ (by positivity) ?_
            rw [div_le_one hlenq]
            exact_mod_cast occupiedSlots_card_le dets slots thr
          · exact ⟨le_refl 0, zero_le_one⟩
  · intro dets slots thr e he
    rw [occupancy_timeline] at he
    rcases List.mem_map.mp he with ⟨f, hf, rfl⟩
    dsimp only
    split
    · rename_i hlen
      have hlenq : (0 : ℚ) < ((slots.length : ℕ) : ℚ) := by exact_mod_cast hlen
      constructor
      · positivity
      · rw [div_le_one hlenq]
        exact_mod_cast occupiedSlots_card_le _ slots thr
    · exact ⟨le_refl 0, zero_le_one⟩

/-- Witness for C10: with one slot whose latest event is "occupied" the
current-occupancy endpoint reports rate `occupied / total * 100`, within
`[0, 100]`. -/
theorem occupancy_rate_scales_witness :
    (get_current_occupancy_stats [1] (fun _ => some "occupied")).occupancy_rate
        = ((get_current_occupancy_stats [1]
              (fun _ => some "occupied")).occupied_slots : ℚ)
          / ((get_current_occupancy_stats [1]
              (fun _ => some "occupied")).total_slots : ℚ) * 100
      ∧ 0 ≤ (get_current_occupancy_stats [1]
          (fun _ => some "occupied")).occupancy_rate
      ∧ (get_current_occupancy_stats [1]
          (fun _ => some "occupied")).occupancy_rate ≤ 100 :=
  occupancy_rate_scales.2.1 [1] (fun _ => some "occupied")
    (List.cons_ne_nil 1 [])
